import Mathlib

/-!
# Verification of the type-classifier utility

A shallow embedding of the repository's TypeScript source (the completed
implementation file): the value classifier `getType` / `getRealType`, the
list analyzers `allItemsHaveTheSameType`, `everyItemHasAUniqueRealType`,
`countRealTypes`, and the test-runner equality helper `areEqual`, together
with proofs of the specified properties.

JavaScript values are modelled as an inductive type.  Every object-like
value (array, plain object, boxed string, date, regexp, set, map, error,
array buffer, blob, function, symbol) carries a reference identity
`ref : Nat`; strict equality `===` compares object-like values by that
reference, and primitives by value, with `NaN === NaN` being false.
Numbers are modelled as NaN, +Infinity, -Infinity or a finite rational.
-/

/-- The special states of a JS number needed by the classifier:
`NaN`, `Infinity`, `-Infinity`, or an ordinary finite value. -/
inductive JSNumber where
  | nan
  | posInf
  | negInf
  | finite (q : ℚ)
deriving DecidableEq

mutual

/-- A JavaScript runtime value.  Object-like constructors carry a `ref`
identity used by strict equality. -/
inductive JSValue where
  | undefined
  | null
  | boolean (b : Bool)
  | number (n : JSNumber)
  | string (s : String)
  | bigint (i : Int)
  | symbol (ref : Nat)
  | object (ref : Nat)
  | boxedString (ref : Nat) (s : String)
  | array (ref : Nat) (elems : JSValueList)
  | date (ref : Nat)
  | regexp (ref : Nat) (pattern : String)
  | jsSet (ref : Nat)
  | jsMap (ref : Nat)
  | error (ref : Nat)
  | buffer (ref : Nat)
  | blob (ref : Nat)
  | function (ref : Nat) (name : String)

/-- The element sequence of a JS array value. -/
inductive JSValueList where
  | nil
  | cons (head : JSValue) (tail : JSValueList)

end

namespace JSValueList

/-- The JS `a.length` of an array's element sequence. -/
def len : JSValueList → Nat
  | .nil => 0
  | .cons _ tl => len tl + 1

/-- View an array's element sequence as a Lean list. -/
def toList : JSValueList → List JSValue
  | .nil => []
  | .cons hd tl => hd :: toList tl

theorem len_eq_length_toList : ∀ l : JSValueList, l.len = l.toList.length
  | .nil => rfl
  | .cons hd tl => by simp [len, toList, len_eq_length_toList tl]

end JSValueList

/-- Strict equality on the special number states: `NaN === x` is always
false; the infinities and finite values compare by value. -/
def numEq : JSNumber → JSNumber → Bool
  | .nan, _ => false
  | _, .nan => false
  | .posInf, .posInf => true
  | .negInf, .negInf => true
  | .finite q, .finite r => q == r
  | _, _ => false

/-- JavaScript strict equality `a === b`: primitives by value (with
`NaN !== NaN`), object-like values by reference identity, no coercion
across constructors. -/
def strictEq (a b : JSValue) : Bool :=
  match a, b with
  | .undefined, .undefined => true
  | .null, .null => true
  | .boolean x, .boolean y => x == y
  | .number x, .number y => numEq x y
  | .string x, .string y => x == y
  | .bigint x, .bigint y => x == y
  | .symbol r, .symbol r' => r == r'
  | .object r, .object r' => r == r'
  | .boxedString r _, .boxedString r' _ => r == r'
  | .array r _, .array r' _ => r == r'
  | .date r, .date r' => r == r'
  | .regexp r _, .regexp r' _ => r == r'
  | .jsSet r, .jsSet r' => r == r'
  | .jsMap r, .jsMap r' => r == r'
  | .error r, .error r' => r == r'
  | .buffer r, .buffer r' => r == r'
  | .blob r, .blob r' => r == r'
  | .function r _, .function r' _ => r == r'
  | _, _ => false

/-- Source `getType` (`return typeof value`): the coarse native type tag. -/
def getType (value : JSValue) : String :=
  match value with
  | .undefined => "undefined"
  | .null => "object"
  | .boolean _ => "boolean"
  | .number _ => "number"
  | .string _ => "string"
  | .bigint _ => "bigint"
  | .symbol _ => "symbol"
  | .function _ _ => "function"
  | .object _ => "object"
  | .boxedString _ _ => "object"
  | .array _ _ => "object"
  | .date _ => "object"
  | .regexp _ _ => "object"
  | .jsSet _ => "object"
  | .jsMap _ => "object"
  | .error _ => "object"
  | .buffer _ => "object"
  | .blob _ => "object"

/-- Host primitive `Array.isArray(value)`. -/
def isArray : JSValue → Bool
  | .array _ _ => true
  | _ => false

/-- Host check `value instanceof Date`. -/
def instanceofDate : JSValue → Bool
  | .date _ => true
  | _ => false

/-- Host check `value instanceof RegExp`. -/
def instanceofRegExp : JSValue → Bool
  | .regexp _ _ => true
  | _ => false

/-- Host check `value instanceof Set`. -/
def instanceofSet : JSValue → Bool
  | .jsSet _ => true
  | _ => false

/-- Host check `value instanceof Map`. -/
def instanceofMap : JSValue → Bool
  | .jsMap _ => true
  | _ => false

/-- Host check `value instanceof Error`. -/
def instanceofError : JSValue → Bool
  | .error _ => true
  | _ => false

/-- Host check `value instanceof ArrayBuffer`. -/
def instanceofArrayBuffer : JSValue → Bool
  | .buffer _ => true
  | _ => false

/-- Host check `value instanceof Blob`. -/
def instanceofBlob : JSValue → Bool
  | .blob _ => true
  | _ => false

/-- Host primitive `Number.isNaN(value)`: true only for the NaN number
value, with no coercion. -/
def numberIsNaN : JSValue → Bool
  | .number .nan => true
  | _ => false

/-- The `name` property of a value: its declared name for functions,
`undefined` (here `none`) otherwise. -/
def jsName : JSValue → Option String
  | .function _ n => some n
  | _ => none

/-- Source `getRealType` (lines 51-86): the refined tag, an if-chain of
thirteen discriminations evaluated top to bottom, first match wins,
falling back to `typeof value`. -/
def getRealType (value : JSValue) : String :=
  if isArray value then "array"
  else if instanceofDate value then "date"
  else if instanceofRegExp value then "regexp"
  else if instanceofSet value then "set"
  else if instanceofMap value then "map"
  else if instanceofError value then "error"
  else if instanceofArrayBuffer value then "buffer"
  else if instanceofBlob value then "blob"
  else if numberIsNaN value then "NaN"
  else if strictEq value .null then "null"
  else if strictEq value (.number .posInf) then "Infinity"
  else if getType value == "function" && jsName value == some "GeneratorFunction" then
    "generator function"
  else getType value

example : getRealType (.array 0 .nil) = "array" := by decide
example : getRealType (.number .nan) = "NaN" := by decide
example : getRealType .null = "null" := by decide
example : getRealType (.number .posInf) = "Infinity" := by decide
example : getRealType (.number .negInf) = "number" := by decide
example : getRealType (.function 0 "GeneratorFunction") = "generator function" := by decide
example : getRealType (.function 0 "f") = "function" := by decide
example : getRealType (.boxedString 0 "12") = "object" := by decide

/-- Source `getTypesOfItems` (`arr.map(getType)`). -/
def getTypesOfItems (arr : List JSValue) : List String :=
  arr.map getType

/-- Source `getRealTypesOfItems` (lines 88-95: a for-of loop pushing
`getRealType(el)` for each element in order, i.e. the mapped list). -/
def getRealTypesOfItems (arr : List JSValue) : List String :=
  arr.map getRealType

/-- The size of `new Set(l)` for a list of strings: the number of distinct
elements, i.e. the length of the deduplicated list. -/
def jsSetSize (l : List String) : Nat :=
  l.dedup.length

/-- Source `allItemsHaveTheSameType` (lines 42-49). -/
def allItemsHaveTheSameType (arr : List JSValue) : Bool :=
  if arr.length > 0 then jsSetSize (getTypesOfItems arr) == 1
  else true

/-- Source `everyItemHasAUniqueRealType` (lines 97-105). -/
def everyItemHasAUniqueRealType (arr : List JSValue) : Bool :=
  if arr.length > 0 then jsSetSize (getRealTypesOfItems arr) == arr.length
  else true

/-- The comparison used by JS `Array.prototype.sort()` with no comparator:
elementwise on the strings' code units (for these ASCII tags, the code
unit is the character's code point), shorter prefix first. -/
def charsLe : List Char → List Char → Bool
  | [], _ => true
  | _ :: _, [] => false
  | c :: cs, d :: ds => if c < d then true else if d < c then false else charsLe cs ds

theorem charsLe_cons (c d : Char) (cs ds : List Char) :
    charsLe (c :: cs) (d :: ds) =
      if c < d then true else if d < c then false else charsLe cs ds := rfl

/-- The sort order of `Array.prototype.sort()` on strings, as a relation. -/
def strLe (a b : String) : Prop := charsLe a.data b.data = true

instance : DecidableRel strLe :=
  fun a b => inferInstanceAs (Decidable (charsLe a.data b.data = true))

theorem charsLe_total : ∀ x y : List Char, charsLe x y = true ∨ charsLe y x = true
  | [], _ => Or.inl rfl
  | _ :: _, [] => Or.inr rfl
  | c :: cs, d :: ds => by
    rcases lt_trichotomy c d with h | h | h
    · left; simp [charsLe_cons, h]
    · subst h
      rcases charsLe_total cs ds with h' | h' <;> [left; right] <;>
        simp [charsLe_cons, lt_irrefl, h']
    · right; simp [charsLe_cons, h]

theorem charsLe_trans : ∀ x y z : List Char,
    charsLe x y = true → charsLe y z = true → charsLe x z = true
  | [], _, _, _, _ => rfl
  | _ :: _, [], _, h, _ => by simp [charsLe] at h
  | _ :: _, _ :: _, [], _, h => by simp [charsLe] at h
  | c :: cs, d :: ds, e :: es, h1, h2 => by
    rw [charsLe_cons] at h1 h2 ⊢
    by_cases hcd : c < d
    · by_cases hde : d < e
      · simp [lt_trans hcd hde]
      · by_cases hed : e < d
        · simp [hde, hed] at h2
        · have hde' : d = e := le_antisymm (not_lt.mp hed) (not_lt.mp hde)
          subst hde'
          simp [hcd]
    · by_cases hdc : d < c
      · simp [hcd, hdc] at h1
      · have hcd' : c = d := le_antisymm (not_lt.mp hdc) (not_lt.mp hcd)
        subst hcd'
        simp only [lt_irrefl, if_false] at h1
        by_cases hce : c < e
        · simp [hce]
        · by_cases hec : e < c
          · simp [hce, hec] at h2
          · simp only [hce, hec, if_false]
            simp only [hce, hec, if_false] at h2
            exact charsLe_trans cs ds es h1 h2

theorem charsLe_antisymm : ∀ x y : List Char,
    charsLe x y = true → charsLe y x = true → x = y
  | [], [], _, _ => rfl
  | [], _ :: _, _, h => by simp [charsLe] at h
  | _ :: _, [], h, _ => by simp [charsLe] at h
  | c :: cs, d :: ds, h1, h2 => by
    rw [charsLe_cons] at h1 h2
    by_cases hcd : c < d
    · simp [lt_asymm hcd, hcd] at h2
    · by_cases hdc : d < c
      · simp [hcd, hdc] at h1
      · have hcd' : c = d := le_antisymm (not_lt.mp hdc) (not_lt.mp hcd)
        subst hcd'
        simp only [lt_irrefl, if_false] at h1 h2
        rw [charsLe_antisymm cs ds h1 h2]

instance : IsTotal String strLe := ⟨fun a b => charsLe_total a.data b.data⟩

instance : IsTrans String strLe := ⟨fun a b c => charsLe_trans a.data b.data c.data⟩

instance : IsAntisymm String strLe :=
  ⟨fun a b h1 h2 => String.ext (charsLe_antisymm a.data b.data h1 h2)⟩

instance : IsRefl String strLe :=
  ⟨fun a => by
    rcases charsLe_total a.data a.data with h | h <;> exact h⟩

/-- One step of the counting loop of `countRealTypes`: increment the count
stored under key `s` in the string-keyed object, or append `(s, 1)` if the
key is absent.  The object is modelled as an association list in key
insertion order, which for these non-index keys is exactly the
`Object.entries` order. -/
def insertCount : List (String × Nat) → String → List (String × Nat)
  | [], s => [(s, 1)]
  | (k, c) :: rest, s =>
      if k = s then (k, c + 1) :: rest else (k, c) :: insertCount rest s

/-- Source `countRealTypes` (lines 111-129).  The argument is an `Option`
to model the `if (!arr) return []` guard for a null/absent input.  The
real-type tags are sorted ascending by `strLe` (the comparison JS
`Array.prototype.sort()` applies), then counted into a string-keyed
object whose `Object.entries` come back in insertion order. -/
def countRealTypes : Option (List JSValue) → List (String × Nat)
  | none => []
  | some arr =>
      ((getRealTypesOfItems arr).insertionSort strLe).foldl insertCount []

example :
    countRealTypes (some [.boolean true, .null, .boolean true, .boolean false, .object 0]) =
      [("boolean", 3), ("null", 1), ("object", 1)] := by decide

example : countRealTypes (some []) = [] := by decide
example : countRealTypes none = [] := by decide
example : allItemsHaveTheSameType [.string "11", .boxedString 0 "12", .string "13"] = false := by
  decide
example : everyItemHasAUniqueRealType [.boolean true, .number (.finite 123), .string "123"] = true := by
  decide

mutual

/-- Source `areEqual` (TypeScript, lines 10-15): if both operands are
arrays, equal lengths and recursively `areEqual` elements pairwise
(`a.every((element, index) => areEqual(element, b[index]))`, which with the
length guard pairs the elements positionally); otherwise `a === b`. -/
def areEqual : JSValue → JSValue → Bool
  | .array _ xs, .array _ ys => xs.len == ys.len && areEqualEvery xs ys
  | a, b => strictEq a b

/-- The positional `every` loop of `areEqual` over the two element
sequences; only invoked after the length check has succeeded. -/
def areEqualEvery : JSValueList → JSValueList → Bool
  | .cons x xs, .cons y ys => areEqual x y && areEqualEvery xs ys
  | _, _ => true

end

example : areEqual (.array 0 (.cons (.number .nan) .nil))
    (.array 0 (.cons (.number .nan) .nil)) = false := by decide
example : areEqual (.array 0 (.cons (.number (.finite 1)) .nil))
    (.array 1 (.cons (.number (.finite 1)) .nil)) = true := by decide
example : areEqual (.array 0 (.cons (.array 1 (.cons (.number (.finite 1)) .nil)) .nil))
    (.array 2 (.cons (.array 3 (.cons (.number (.finite 1)) .nil)) .nil)) = true := by decide
example : areEqual .null .undefined = false := by decide

/-- The spec's ordered sequence of discriminations for `realType`: twelve
(predicate, tag) pairs, in the spec's order. -/
def realTypeChecks : List ((JSValue → Bool) × String) :=
  [(isArray, "array"),
   (instanceofDate, "date"),
   (instanceofRegExp, "regexp"),
   (instanceofSet, "set"),
   (instanceofMap, "map"),
   (instanceofError, "error"),
   (instanceofArrayBuffer, "buffer"),
   (instanceofBlob, "blob"),
   (numberIsNaN, "NaN"),
   (fun v => strictEq v .null, "null"),
   (fun v => strictEq v (.number .posInf), "Infinity"),
   (fun v => getType v == "function" && jsName v == some "GeneratorFunction",
    "generator function")]

/-- Modelled from the spec: evaluate an ordered list of discriminations
top to bottom, first match wins, falling back to the coarse tag. -/
def firstMatch : List ((JSValue → Bool) × String) → JSValue → String
  | [], v => getType v
  | (p, tag) :: rest, v => if p v then tag else firstMatch rest v

/-- The spec's `realType`: the first matching discrimination of
`realTypeChecks` decides the tag, with the `typeof` fallback. -/
def specRealType (v : JSValue) : String := firstMatch realTypeChecks v

/-- A cell of the mutable heap: either a JS array of values (such as the
input of `countRealTypes`) or a JS array of strings (the tag array
`realTypesArr` the function allocates). -/
inductive HeapCell where
  | vals (l : List JSValue)
  | tags (l : List String)

/-- The mutable store: references to array cells. -/
def Heap : Type := Nat → Option HeapCell

/-- Writing one heap cell in place. -/
def heapUpdate (σ : Heap) (r : Nat) (c : HeapCell) : Heap :=
  fun r' => if r' = r then some c else σ r'

/-- Heap-explicit `countRealTypes`: the argument is a
reference to an array cell (`none` models the null/absent argument of
the `if (!arr)` guard).  `getRealTypesOfItems` allocates a fresh tag
array at `fresh`; the in-place `realTypesArr.sort()` overwrites that same
fresh cell; the input cell is never written.  A call on a dangling or
ill-typed reference is modelled as a no-op. -/
def countRealTypesH (σ : Heap) (arrRef : Option Nat) (fresh : Nat) :
    Heap × List (String × Nat) :=
  match arrRef with
  | none => (σ, [])
  | some r =>
    match σ r with
    | some (.vals arr) =>
        let realTypes := getRealTypesOfItems arr
        let σ1 := heapUpdate σ fresh (.tags realTypes)
        let sorted := realTypes.insertionSort strLe
        let σ2 := heapUpdate σ1 fresh (.tags sorted)
        (σ2, sorted.foldl insertCount [])
    | _ => (σ, [])

/-- A one-cell heap holding the array `[null]` at reference 0, used to
witness the frame theorem. -/
def heapW : Heap := fun r => if r = 0 then some (.vals [.null]) else none

/-- The tag column of a frequency-count result. -/
def keysOf (r : List (String × Nat)) : List String := r.map Prod.fst

/-- The total of the count column of a frequency-count result. -/
def sumCounts (r : List (String × Nat)) : Nat := (r.map Prod.snd).sum

theorem sumCounts_insertCount (acc : List (String × Nat)) (s : String) :
    sumCounts (insertCount acc s) = sumCounts acc + 1 := by
  induction acc with
  | nil => simp [insertCount, sumCounts]
  | cons p rest ih =>
      obtain ⟨k, c⟩ := p
      by_cases h : k = s <;> simp [insertCount, h, sumCounts] at ih ⊢ <;> omega

theorem keysOf_insertCount_mem : ∀ (acc : List (String × Nat)) (s : String),
    s ∈ keysOf acc → keysOf (insertCount acc s) = keysOf acc
  | [], s, hs => by simp [keysOf] at hs
  | (k, c) :: rest, s, hs => by
      by_cases h : k = s
      · subst h
        simp [insertCount, keysOf]
      · have hs' : s ∈ keysOf rest := by
          simp only [keysOf, List.map_cons, List.mem_cons] at hs
          rcases hs with h1 | h1
          · exact absurd h1.symm h
          · exact h1
        have ihr := keysOf_insertCount_mem rest s hs'
        simp only [keysOf] at ihr
        simp [insertCount, h, keysOf, ihr]

theorem keysOf_insertCount_not_mem : ∀ (acc : List (String × Nat)) (s : String),
    s ∉ keysOf acc → keysOf (insertCount acc s) = keysOf acc ++ [s]
  | [], s, _ => by simp [insertCount, keysOf]
  | (k, c) :: rest, s, hs => by
      have hks : ¬ k = s := by
        intro he
        subst he
        exact hs (by simp [keysOf])
      have hs' : s ∉ keysOf rest := by
        intro hmem
        exact hs (by simp [keysOf] at hmem ⊢; exact Or.inr hmem)
      have ihr := keysOf_insertCount_not_mem rest s hs'
      simp only [keysOf] at ihr
      simp [insertCount, hks, keysOf, ihr]

theorem counts_pos_insertCount : ∀ (acc : List (String × Nat)) (s : String),
    (∀ p ∈ acc, 1 ≤ p.2) → ∀ p ∈ insertCount acc s, 1 ≤ p.2
  | [], s, _, p, hp => by
      simp [insertCount] at hp
      subst hp
      exact Nat.le_refl 1
  | (k, c) :: rest, s, h, p, hp => by
      by_cases hk : k = s
      · subst hk
        simp only [insertCount, if_pos rfl] at hp
        rcases List.mem_cons.mp hp with h1 | h1
        · subst h1; exact Nat.le_add_left 1 c
        · exact h p (List.mem_cons_of_mem _ h1)
      · simp only [insertCount, if_neg hk] at hp
        rcases List.mem_cons.mp hp with h1 | h1
        · subst h1; exact h _ (List.mem_cons_self _ _)
        · exact counts_pos_insertCount rest s
            (fun q hq => h q (List.mem_cons_of_mem _ hq)) p h1

theorem mem_keys_insertCount : ∀ (acc : List (String × Nat)) (s : String)
    (p : String × Nat), p ∈ insertCount acc s → p.1 ∈ keysOf acc ∨ p.1 = s
  | [], s, p, hp => by
      simp [insertCount] at hp
      subst hp
      exact Or.inr rfl
  | (k, c) :: rest, s, p, hp => by
      by_cases hk : k = s
      · subst hk
        simp only [insertCount, if_pos rfl] at hp
        rcases List.mem_cons.mp hp with h1 | h1
        · subst h1; exact Or.inl (by simp [keysOf])
        · exact Or.inl (by simp [keysOf]; exact Or.inr ⟨p.2, by simpa using h1⟩)
      · simp only [insertCount, if_neg hk] at hp
        rcases List.mem_cons.mp hp with h1 | h1
        · subst h1; exact Or.inl (by simp [keysOf])
        · rcases mem_keys_insertCount rest s p h1 with h2 | h2
          · exact Or.inl (by simp [keysOf] at h2 ⊢; exact Or.inr h2)
          · exact Or.inr h2

/-- The invariant of the counting loop of `countRealTypes`: folding
`insertCount` over a sorted tag list, starting from an accumulator whose
keys are sorted, duplicate-free, all bounded by the remaining tags, and
whose counts are positive, yields sorted duplicate-free keys, positive
counts, and a count total increased by the number of tags consumed. -/
theorem foldl_insertCount_invariant :
    ∀ (l : List String) (acc : List (String × Nat)),
      l.Sorted strLe →
      (keysOf acc).Sorted strLe →
      (keysOf acc).Nodup →
      (∀ p ∈ acc, 1 ≤ p.2) →
      (∀ k ∈ keysOf acc, ∀ s ∈ l, strLe k s) →
      ((keysOf (l.foldl insertCount acc)).Sorted strLe ∧
       (keysOf (l.foldl insertCount acc)).Nodup ∧
       (∀ p ∈ l.foldl insertCount acc, 1 ≤ p.2) ∧
       sumCounts (l.foldl insertCount acc) = sumCounts acc + l.length)
  | [], acc, _, hks, hnd, hc, _ => ⟨hks, hnd, hc, by simp⟩
  | s :: l', acc, hl, hks, hnd, hc, hb => by
      have hl' : l'.Sorted strLe := hl.of_cons
      have hhead : ∀ t ∈ l', strLe s t := List.rel_of_sorted_cons hl
      by_cases hs : s ∈ keysOf acc
      · have hkeys' := keysOf_insertCount_mem acc s hs
        have r := foldl_insertCount_invariant l' (insertCount acc s) hl'
          (hkeys' ▸ hks) (hkeys' ▸ hnd)
          (counts_pos_insertCount acc s hc)
          (by
            intro k hk t ht
            rw [hkeys'] at hk
            exact hb k hk t (List.mem_cons_of_mem _ ht))
        obtain ⟨r1, r2, r3, r4⟩ := r
        refine ⟨by simpa using r1, by simpa using r2, by simpa using r3, ?_⟩
        rw [List.foldl_cons, r4, sumCounts_insertCount]
        simp only [List.length_cons]
        omega
      · have hkeys' := keysOf_insertCount_not_mem acc s hs
        have hsort' : (keysOf (insertCount acc s)).Sorted strLe := by
          rw [hkeys']
          refine List.pairwise_append.mpr ⟨hks, List.pairwise_singleton _ _, ?_⟩
          intro x hx y hy
          rcases List.mem_singleton.mp hy with rfl
          exact hb x hx y (List.mem_cons_self _ _)
        have hnd' : (keysOf (insertCount acc s)).Nodup := by
          rw [hkeys']
          refine List.nodup_append.mpr ⟨hnd, List.nodup_singleton _, ?_⟩
          intro x hx hx'
          rcases List.mem_singleton.mp hx' with rfl
          exact hs hx
        have r := foldl_insertCount_invariant l' (insertCount acc s) hl'
          hsort' hnd'
          (counts_pos_insertCount acc s hc)
          (by
            intro k hk t ht
            rw [hkeys'] at hk
            rcases List.mem_append.mp hk with h1 | h1
            · exact hb k h1 t (List.mem_cons_of_mem _ ht)
            · rcases List.mem_singleton.mp h1 with rfl
              exact hhead t ht)
        obtain ⟨r1, r2, r3, r4⟩ := r
        refine ⟨by simpa using r1, by simpa using r2, by simpa using r3, ?_⟩
        rw [List.foldl_cons, r4, sumCounts_insertCount]
        simp only [List.length_cons]
        omega

/-!
## Theorems for the claims
-/

/-- C1: for every value `v`, `getRealType v` is computed by evaluating the
thirteen discriminations in the spec's order (the twelve checks of
`realTypeChecks`, then the `typeof` fallback), first match winning; the
function is total, and a value matching no check yields the coarse tag. -/
theorem getRealType_ordered_discriminations :
    (∀ v : JSValue, getRealType v = specRealType v) ∧
    (∀ v : JSValue, realTypeChecks.all (fun pt => !pt.1 v) = true →
      getRealType v = getType v) := by
  constructor
  · intro v; rfl
  · intro v h
    simp only [realTypeChecks, List.all_cons, List.all_nil, Bool.and_true,
      Bool.and_eq_true, Bool.not_eq_true'] at h
    obtain ⟨h1, h2, h3, h4, h5, h6, h7, h8, h9, h10, h11, h12⟩ := h
    simp [getRealType, h1, h2, h3, h4, h5, h6, h7, h8, h9, h10, h11, h12]

/-- Witness for C1: the boolean `true` matches none of the twelve
discriminations and falls through to its coarse tag. -/
theorem getRealType_ordered_discriminations_witness :
    realTypeChecks.all (fun pt => !pt.1 (.boolean true)) = true ∧
    getRealType (.boolean true) = getType (.boolean true) :=
  ⟨by decide, getRealType_ordered_discriminations.2 (.boolean true) (by decide)⟩

/-- C2: for every list `L`, `countRealTypes (some L)` has pairwise
distinct tags, counts summing to `L.length`, every count at least 1, and
the pairs ordered ascending by tag label (the sort-order relation
`strLe`, lexicographic on the tag string's code units). -/
theorem countRealTypes_shape (L : List JSValue) :
    ((countRealTypes (some L)).map Prod.fst).Nodup ∧
    ((countRealTypes (some L)).map Prod.fst).Sorted strLe ∧
    (∀ p ∈ countRealTypes (some L), 1 ≤ p.2) ∧
    ((countRealTypes (some L)).map Prod.snd).sum = L.length := by
  have hsorted := List.sorted_insertionSort strLe (getRealTypesOfItems L)
  have hinv := foldl_insertCount_invariant
    ((getRealTypesOfItems L).insertionSort strLe) [] hsorted
    (by simp [keysOf]) (by simp [keysOf]) (by simp) (by simp [keysOf])
  obtain ⟨h1, h2, h3, h4⟩ := hinv
  have hlen : ((getRealTypesOfItems L).insertionSort strLe).length = L.length := by
    rw [(List.perm_insertionSort strLe _).length_eq]
    simp [getRealTypesOfItems]
  refine ⟨h2, h1, h3, ?_⟩
  have h4' : sumCounts (countRealTypes (some L)) = L.length := by
    rw [show countRealTypes (some L) =
        ((getRealTypesOfItems L).insertionSort strLe).foldl insertCount [] from rfl,
      h4, hlen]
    simp [sumCounts]
  simpa [sumCounts] using h4'

/-- Witness for C2: on the one-element list holding `null` the count is
positive and the counts sum to 1. -/
theorem countRealTypes_shape_witness :
    1 ≤ (("null", 1) : String × Nat).2 ∧
    ((countRealTypes (some [JSValue.null])).map Prod.snd).sum = 1 :=
  ⟨(countRealTypes_shape [JSValue.null]).2.2.1 ("null", 1) (by decide),
   (countRealTypes_shape [JSValue.null]).2.2.2⟩

/-- C4: `countRealTypes` is invariant under permutation of its input, and
on the spec's two example lists (written with `!null = true` and
`!!null = false` already evaluated) it yields
`[("boolean", 3), ("null", 1), ("object", 1)]`. -/
theorem countRealTypes_perm_invariant :
    (∀ L1 L2 : List JSValue, L1.Perm L2 →
      countRealTypes (some L1) = countRealTypes (some L2)) ∧
    countRealTypes
        (some [.object 0, .null, .boolean true, .boolean true, .boolean false]) =
      [("boolean", 3), ("null", 1), ("object", 1)] ∧
    countRealTypes
        (some [.boolean true, .null, .boolean true, .boolean false, .object 0]) =
      [("boolean", 3), ("null", 1), ("object", 1)] := by
  refine ⟨?_, by decide, by decide⟩
  intro L1 L2 hperm
  have hmap : (getRealTypesOfItems L1).Perm (getRealTypesOfItems L2) :=
    hperm.map getRealType
  have hp : ((getRealTypesOfItems L1).insertionSort strLe).Perm
      ((getRealTypesOfItems L2).insertionSort strLe) :=
    ((List.perm_insertionSort strLe _).trans hmap).trans
      (List.perm_insertionSort strLe _).symm
  have heq : (getRealTypesOfItems L1).insertionSort strLe =
      (getRealTypesOfItems L2).insertionSort strLe :=
    List.eq_of_perm_of_sorted hp
      (List.sorted_insertionSort strLe _) (List.sorted_insertionSort strLe _)
  show ((getRealTypesOfItems L1).insertionSort strLe).foldl insertCount [] =
    ((getRealTypesOfItems L2).insertionSort strLe).foldl insertCount []
  rw [heq]

/-- Witness for C4: two concrete lists that are permutations of each other
get the same count result. -/
theorem countRealTypes_perm_invariant_witness :
    countRealTypes (some [JSValue.null, JSValue.boolean true]) =
      countRealTypes (some [JSValue.boolean true, JSValue.null]) :=
  countRealTypes_perm_invariant.1 _ _ (List.Perm.swap _ _ _)

/-- C7: on empty or absent input the list analyzers return their neutral
results: `allItemsHaveTheSameType [] = true`,
`everyItemHasAUniqueRealType [] = true`, `countRealTypes (some []) = []`
and `countRealTypes none = []`. -/
theorem analyzers_neutral_on_empty :
    allItemsHaveTheSameType [] = true ∧
    everyItemHasAUniqueRealType [] = true ∧
    countRealTypes (some []) = [] ∧
    countRealTypes none = [] :=
  ⟨rfl, rfl, rfl, rfl⟩

/-- C8: only the positive-infinity sentinel is refined:
`getRealType Infinity = "Infinity"`, while `-Infinity` matches none of the
discriminations (the check is strict equality with positive `Infinity`)
and falls through to the coarse tag `"number"`. -/
theorem getRealType_infinity_asymmetry :
    getRealType (.number .posInf) = "Infinity" ∧
    realTypeChecks.all (fun pt => !pt.1 (.number .negInf)) = true ∧
    getRealType (.number .negInf) = "number" := by
  refine ⟨by decide, by decide, by decide⟩

/-- C5: `allItemsHaveTheSameType L` is true iff the set of coarse type
tags of the elements of `L` has exactly one member, vacuously true for the
empty list; in particular a list mixing a literal string with a boxed
string yields `false`, the boxed string's coarse tag being `"object"`. -/
theorem allItemsHaveTheSameType_iff :
    (∀ L : List JSValue, allItemsHaveTheSameType L = true ↔
      ((L.map getType).toFinset.card = 1 ∨ L = [])) ∧
    allItemsHaveTheSameType [.string "11", .boxedString 0 "12", .string "13"] = false := by
  constructor
  · intro L
    cases L with
    | nil => simp [allItemsHaveTheSameType]
    | cons x xs =>
        rw [List.card_toFinset]
        simp [allItemsHaveTheSameType, jsSetSize, getTypesOfItems]
  · decide

/-- Witness for C5: a list of three numbers has a single coarse tag. -/
theorem allItemsHaveTheSameType_iff_witness :
    allItemsHaveTheSameType
      [.number (.finite 11), .number (.finite 12), .number (.finite 13)] = true :=
  (allItemsHaveTheSameType_iff.1 _).mpr (Or.inl (by decide))

/-- C6: `everyItemHasAUniqueRealType L` is true iff the set of real-type
tags of the elements of `L` has cardinality equal to `L.length`, vacuously
true for the empty list (`0 = 0`). -/
theorem everyItemHasAUniqueRealType_iff (L : List JSValue) :
    everyItemHasAUniqueRealType L = true ↔
      (L.map getRealType).toFinset.card = L.length := by
  cases L with
  | nil => simp [everyItemHasAUniqueRealType]
  | cons x xs =>
      rw [List.card_toFinset]
      simp [everyItemHasAUniqueRealType, jsSetSize, getRealTypesOfItems]

/-- Witness for C6: three values with pairwise distinct real types. -/
theorem everyItemHasAUniqueRealType_iff_witness :
    everyItemHasAUniqueRealType
      [.boolean true, .number (.finite 123), .string "123"] = true :=
  (everyItemHasAUniqueRealType_iff _).mpr (by decide)

/-- The `every` loop of `areEqual`, together with the length guard, holds
exactly when the element sequences are pointwise recursively `areEqual`. -/
theorem areEqualEvery_iff : ∀ xs ys : JSValueList,
    (xs.len = ys.len ∧ areEqualEvery xs ys = true) ↔
      List.Forall₂ (fun x y => areEqual x y = true) xs.toList ys.toList
  | .nil, .nil => by simp [JSValueList.len, JSValueList.toList, areEqualEvery]
  | .nil, .cons y ys => by simp [JSValueList.len, JSValueList.toList]
  | .cons x xs, .nil => by simp [JSValueList.len, JSValueList.toList]
  | .cons x xs, .cons y ys => by
      have ih := areEqualEvery_iff xs ys
      simp only [JSValueList.len, JSValueList.toList, areEqualEvery,
        Bool.and_eq_true, List.forall₂_cons, Nat.add_right_cancel_iff]
      constructor
      · rintro ⟨hlen, hxy, hrest⟩
        exact ⟨hxy, ih.mp ⟨hlen, hrest⟩⟩
      · rintro ⟨hxy, hrest⟩
        obtain ⟨hlen, hev⟩ := ih.mpr hrest
        exact ⟨hlen, hxy, hev⟩

/-- C3: when both operands are arrays, `areEqual` holds iff the element
sequences have the same length and corresponding elements are recursively
`areEqual` (i.e. `Forall₂`); otherwise it is strict equality `===` on the
two operands, with no coercion. -/
theorem areEqual_structural :
    (∀ r1 xs r2 ys, areEqual (.array r1 xs) (.array r2 ys) = true ↔
        List.Forall₂ (fun x y => areEqual x y = true) xs.toList ys.toList) ∧
    (∀ a b : JSValue, isArray a = false ∨ isArray b = false →
      areEqual a b = strictEq a b) := by
  constructor
  · intro r1 xs r2 ys
    have harr : areEqual (.array r1 xs) (.array r2 ys) =
        (xs.len == ys.len && areEqualEvery xs ys) := rfl
    rw [harr, Bool.and_eq_true, beq_iff_eq]
    exact areEqualEvery_iff xs ys
  · intro a b h
    cases a <;> cases b <;> first
      | rfl
      | simp [isArray] at h

/-- Witness for C3: on a non-array pair, `areEqual` coincides with strict
equality. -/
theorem areEqual_structural_witness :
    areEqual .null (.boolean true) = strictEq .null (.boolean true) :=
  areEqual_structural.2 .null (.boolean true) (Or.inl rfl)

/-- C9: `countRealTypes` never mutates its input: the in-place sort is
applied only to the freshly allocated tag array, so the input array's
cell — and every other pre-existing cell — is unchanged after the call,
and the result agrees with the pure `countRealTypes`. -/
theorem countRealTypes_no_input_mutation (σ : Heap) (r fresh : Nat)
    (L : List JSValue) (hr : σ r = some (.vals L)) (hfresh : σ fresh = none) :
    ((countRealTypesH σ (some r) fresh).1 r = some (.vals L)) ∧
    (∀ r', r' ≠ fresh → (countRealTypesH σ (some r) fresh).1 r' = σ r') ∧
    (countRealTypesH σ (some r) fresh).2 = countRealTypes (some L) := by
  have hrf : r ≠ fresh := by
    intro he
    rw [he, hfresh] at hr
    exact Option.noConfusion hr
  refine ⟨?_, ?_, ?_⟩
  · simp [countRealTypesH, hr, heapUpdate, hrf]
  · intro r' hne
    simp [countRealTypesH, hr, heapUpdate, hne]
  · simp [countRealTypesH, hr, countRealTypes]

/-- Witness for C9: on a one-cell heap holding `[null]` at reference 0,
with the fresh tag array at reference 1, the input cell still holds
`[null]` after the call. -/
theorem countRealTypes_no_input_mutation_witness :
    (countRealTypesH heapW (some 0) 1).1 0 = some (.vals [JSValue.null]) :=
  (countRealTypes_no_input_mutation heapW 0 1 [JSValue.null] rfl rfl).1

/-- C10: `areEqual` is not reflexive: an array containing `NaN`, compared
with itself, yields `false`, because element positions are compared with
strict equality under which `NaN` differs from itself. -/
theorem areEqual_not_reflexive :
    areEqual (.array 0 (.cons (.number .nan) .nil))
        (.array 0 (.cons (.number .nan) .nil)) = false ∧
    ∃ a : JSValue, areEqual a a = false :=
  ⟨by decide, ⟨.array 0 (.cons (.number .nan) .nil), by decide⟩⟩
